import Mathlib

/-!
Verification of the adaptive Socratic dialogue controller of the tutoring
web application: a shallow embedding, in Lean 4, of the session state machine
in `src/components/LearningInterface.tsx`, of the progress aggregator
`calculateThinkingScore`, and of the text post-processing performed by the
oracle adapter in `src/services/gemini.ts`.

JavaScript strings are modelled as Lean `String`s (lists of characters);
`String.prototype.trim`, `toLowerCase` and `includes` are embedded explicitly
(`jsTrim`, `jsToLower`, `containsSub`).  JavaScript numbers used by
`calculateThinkingScore` are modelled as rationals, with `Math.round` embedded
as `jsRound` (floor of x + 1/2).  The oracle (the generative-language client)
is external: each controller operation takes the outcome of the oracle calls
it would issue as an `Except Unit _` argument and additionally returns the
list of oracle calls it issued, so that "no oracle call is made" is a
provable statement.
-/

namespace Tutor

/-! ## JavaScript string primitives -/

/-- The whitespace characters stripped by `String.prototype.trim` and matched
by `\s` (the ASCII part plus NBSP and the Unicode space separators; the
counterexamples and witnesses below only ever use the ASCII part). -/
def jsWsChars : List Char :=
  [' ', '\t', '\n', '\r', '\x0b', '\x0c',
    '\u00a0', '\u1680', '\u2000', '\u2001', '\u2002',
    '\u2003', '\u2004', '\u2005', '\u2006', '\u2007',
    '\u2008', '\u2009', '\u200a', '\u2028', '\u2029',
    '\u202f', '\u205f', '\u3000', '\ufeff']

/-- Is `c` JavaScript whitespace? -/
def isJsWs (c : Char) : Bool := decide (c ∈ jsWsChars)

/-- `trim` on a list of characters: drop whitespace at both ends. -/
def trimL (l : List Char) : List Char :=
  ((l.dropWhile isJsWs).reverse.dropWhile isJsWs).reverse

/-- Right trim only (drop trailing whitespace). -/
def rtrimL (l : List Char) : List Char :=
  (l.reverse.dropWhile isJsWs).reverse

/-- `String.prototype.trim`. -/
def jsTrim (s : String) : String := String.mk (trimL s.data)

/-- Right trim at the `String` level. -/
def rtrimS (s : String) : String := String.mk (rtrimL s.data)

/-- `String.prototype.toLowerCase`, character by character (ASCII range; the
strings the adapter compares are ASCII). -/
def toLowerChar (c : Char) : Char :=
  if 'A' ≤ c ∧ c ≤ 'Z' then Char.ofNat (c.toNat + 32) else c

/-- Lowering on a character list. -/
def toLowerL (l : List Char) : List Char := l.map toLowerChar

/-- `toLowerCase` at the `String` level. -/
def jsToLower (s : String) : String := String.mk (toLowerL s.data)

/-- Does `pat` occur at the head of `l`? -/
def startsWithL (pat : List Char) : List Char → Bool
  | [] => pat.isEmpty
  | c :: l =>
    match pat with
    | [] => true
    | p :: ps => p = c && startsWithL ps l

/-- `String.prototype.includes`: does `pat` occur in `l` as a contiguous
substring? -/
def containsSubL (pat : List Char) : List Char → Bool
  | [] => pat.isEmpty
  | c :: l => startsWithL pat (c :: l) || containsSubL pat l

/-- `includes` at the `String` level: does `pat` occur inside `s`? -/
def containsSub (s pat : String) : Bool := containsSubL pat.data s.data

/-- JS `Math.round` on a rational: floor of x + 1/2. -/
def jsRound (q : ℚ) : ℤ := ⌊q + 1 / 2⌋

/-! ## ProgressAggregator: `calculateThinkingScore`
(backend `src/utils/scoreCalculator`, provided as `unnamed/part_002`). -/

/-- Embeds `calculateThinkingScore(correctAnswers, hintsUsed, timeSpentMinutes?,
totalQuestions)`.  The JS guard `timeSpentMinutes && timeSpentMinutes > 0 &&
totalQuestions > 0` is kept verbatim (truthiness of a number is `≠ 0`). -/
def calculateThinkingScore (correctAnswers hintsUsed : ℚ)
    (timeSpentMinutes : Option ℚ) (totalQuestions : ℚ) : ℚ :=
  let correctnessScore : ℚ :=
    if 0 < totalQuestions then correctAnswers / totalQuestions * 60 else 0
  let hintsPenalty : ℚ := min (hintsUsed * 2) 20
  let timeBonus : ℚ :=
    match timeSpentMinutes with
    | some t =>
      if t ≠ 0 ∧ 0 < t ∧ 0 < totalQuestions then
        let avgTimePerQuestion := t / totalQuestions
        if 2 ≤ avgTimePerQuestion ∧ avgTimePerQuestion ≤ 5 then 20
        else if avgTimePerQuestion < 2 then 10
        else if avgTimePerQuestion ≤ 10 then 15
        else 5
      else 10
    | none => 10
  let score := max 0 (min 100 (correctnessScore - hintsPenalty + timeBonus))
  (jsRound (score * 10) : ℚ) / 10

/-- The claim's formula for the thinking score, written from the spec's words:
correctness `(c/tq)*60` (0 exactly when `tq = 0`), hint penalty
`min(h*2, 20)`, time bonus 10 when time is absent and otherwise determined by
`avg = t/tq` (20 on `[2,5]`, 10 below 2, 15 on `(5,10]`, 5 above 10), the sum
clamped to `[0,100]` and rounded to one decimal. -/
def thinkingScoreClaim (correctAnswers hintsUsed : ℚ)
    (timeSpentMinutes : Option ℚ) (totalQuestions : ℚ) : ℚ :=
  let correctness : ℚ :=
    if totalQuestions = 0 then 0 else correctAnswers / totalQuestions * 60
  let hintPenalty : ℚ := min (hintsUsed * 2) 20
  let timeBonus : ℚ :=
    match timeSpentMinutes with
    | some t =>
      let avg := t / totalQuestions
      if avg < 2 then 10
      else if avg ≤ 5 then 20
      else if avg ≤ 10 then 15
      else 5
    | none => 10
  let score := max 0 (min 100 (correctness - hintPenalty + timeBonus))
  (jsRound (score * 10) : ℚ) / 10

/-! ## The oracle adapter's text post-processing (`src/services/gemini.ts`)

Only the deterministic post-processing of the generated text is embedded;
the network call and JSON extraction yield the `quality`/`feedback` pair (for
`evaluateResponse`) or the raw generated text (for `generateExplanation`)
that these functions receive. -/

/-- The forbidden explanation phrases checked by `evaluateResponse`. -/
def explanationPhrases : List String :=
  ["the answer is", "the correct answer", "this is because", "it is",
    "they are", "this means"]

/-- The prefix prepended when the feedback looks like an explanation. -/
def evalFeedbackPrefix : String := "Let's explore this further. "

/-- The quality values accepted by `evaluateResponse`. -/
def validQualities : List String := ["strong", "partial", "needs_work"]

/-- `explanationPhrases.some((phrase) => feedbackLower.includes(phrase))`. -/
def hasExplanationPhrases (feedback : String) : Bool :=
  explanationPhrases.any (fun p => containsSub (jsToLower feedback) p)

/-- Embeds the validation and post-processing of a parsed evaluation
(`src/services/gemini.ts`, `evaluateResponse` after `JSON.parse`): reject an
unknown quality or empty feedback; prefix feedback that contains an
explanation phrase (case-insensitively); return the quality and the trimmed
feedback. -/
def evaluateResponsePost (quality feedback : String) :
    Except Unit (String × String) :=
  if quality ∈ validQualities then
    if feedback = "" then .error ()
    else
      .ok (quality,
        jsTrim (if hasExplanationPhrases feedback then
            evalFeedbackPrefix ++ feedback
          else feedback))
  else .error ()

/-- The encouragement phrase `generateExplanation` guarantees. -/
def encouragementPhrase : String := "Ready for the next question?"

/-- The label alternatives of the regex `/^(Explanation|Response|Answer):\s*/i`
(lowercased, with the colon). -/
def explanationLabels : List String := ["explanation:", "response:", "answer:"]

/-- Strip one leading label (case-insensitive) and the whitespace after it. -/
def stripLabel (s : List Char) : List Char :=
  match explanationLabels.find? (fun lab => startsWithL lab.data (toLowerL s)) with
  | some lab => (s.drop lab.length).dropWhile isJsWs
  | none => s

/-- Drop one leading quote character. -/
def stripQuotesStart : List Char → List Char
  | [] => []
  | c :: t => if c = '"' || c = '\'' then t else c :: t

/-- Drop one trailing quote character. -/
def stripQuotesEnd (s : List Char) : List Char :=
  match s.getLast? with
  | some c => if c = '"' || c = '\'' then s.dropLast else s
  | none => s

/-- `replace(/^["']|["']$/g, '')`: drop one leading and one trailing quote. -/
def stripQuotes (s : List Char) : List Char :=
  stripQuotesEnd (stripQuotesStart s)

/-- The cleaned-up explanation text: trim, strip a label prefix, strip edge
quotes, trim again. -/
def cleanedExplanation (raw : String) : String :=
  String.mk (trimL (stripQuotes (stripLabel (jsTrim raw).data)))

/-- Embeds the post-processing of `generateExplanation`
(`src/services/gemini.ts`): reject empty text; clean the text up; append the
encouragement phrase (after a space) unless the text already contains it
case-insensitively. -/
def generateExplanationPost (raw : String) : Except Unit String :=
  if jsTrim raw = "" then .error ()
  else if containsSub (jsToLower (cleanedExplanation raw))
      (jsToLower encouragementPhrase) then
    .ok (cleanedExplanation raw)
  else .ok (cleanedExplanation raw ++ " " ++ encouragementPhrase)

/-! ## The dialogue controller: data model -/

/-- Answer-quality labels returned by the evaluation oracle. -/
inductive Quality where
  | strong
  | partial_
  | needs_work
  deriving DecidableEq, Repr

/-- Role of a dialogue turn. -/
inductive Role where
  | user
  | assistant
  deriving DecidableEq, Repr

/-- Kind tag of a dialogue turn in the conversation history. -/
inductive TurnType where
  | question
  | answer
  | explanation
  deriving DecidableEq, Repr

/-- One turn of the conversation history (the structure passed back to the
oracle as context). -/
structure ConversationMessage where
  role : Role
  content : String
  type : TurnType
  deriving DecidableEq, Repr

/-- Kind tag of a UI chat message. -/
inductive MessageType where
  | aiQuestion
  | userAnswer
  | aiExplanation
  deriving DecidableEq, Repr

/-- One UI chat message (`id` and `timestamp` — presentation-only, derived
from `Date.now()` — are not modelled). -/
structure Message where
  type : MessageType
  content : String
  deriving DecidableEq, Repr

/-- Result of a successful evaluation oracle call. -/
structure Evaluation where
  quality : Quality
  feedback : String
  deriving DecidableEq, Repr

/-- The mutable session state of `LearningInterface` (the component-local
state hooks; UI scratch such as `isLoading`, `error`, `userAnswer`,
`difficultyChanged` is not part of the session state). -/
structure SessionState where
  currentQuestionText : String
  currentQuestionNumber : Nat
  currentAttempts : Nat
  hintsUsed : Nat
  conversationHistory : List ConversationMessage
  showHintButton : Bool
  currentDifficulty : Nat
  recentQualities : List Quality
  messages : List Message
  exploredTopics : List String
  hasShownIntro : Bool
  deriving DecidableEq, Repr

/-- The initial values of the state hooks. -/
def initialState : SessionState :=
  { currentQuestionText := ""
    currentQuestionNumber := 1
    currentAttempts := 0
    hintsUsed := 0
    conversationHistory := []
    showHintButton := false
    currentDifficulty := 1
    recentQualities := []
    messages := []
    exploredTopics := []
    hasShownIntro := false }

/-- A record of one oracle call with the arguments the controller passed. -/
inductive OracleCall where
  | generateIntroExplanation (content : String) (difficulty : Nat)
      (topic : Option String)
  | generateSocraticQuestion (content : String) (difficulty : Nat)
      (history : List ConversationMessage) (topic : Option String)
  | evaluateResponse (question answer content : String) (difficulty : Nat)
  | generateExplanation (question answer content : String) (difficulty : Nat)
  | generateHint (question answer : String) (hintNumber : Nat)
      (content : String) (difficulty : Nat)
  deriving DecidableEq, Repr

/-! ## DifficultyPolicy -/

/-- Embeds `checkAndAdjustDifficulty(qualities)`: given the recent qualities
and the current difficulty, returns the new difficulty and whether an
adjustment fired (firing also clears the quality window). -/
def checkAndAdjustDifficulty (qualities : List Quality) (currentDifficulty : Nat) :
    Nat × Bool :=
  if qualities.length = 3 then
    if qualities.all (fun q => q == Quality.strong) &&
        decide (currentDifficulty < 4) then
      (currentDifficulty + 1, true)
    else if qualities.all (fun q => q == Quality.needs_work) &&
        decide (currentDifficulty > 1) then
      (currentDifficulty - 1, true)
    else (currentDifficulty, false)
  else (currentDifficulty, false)

/-- The quality window left behind by a difficulty check: cleared exactly when
an adjustment fired, retained otherwise. -/
def qualityWindowAfter (qualities : List Quality) (currentDifficulty : Nat) :
    List Quality :=
  if (checkAndAdjustDifficulty qualities currentDifficulty).2 then []
  else qualities

/-- JS `array.slice(-n)`: the last `n` elements. -/
def lastN (n : Nat) (l : List α) : List α := l.drop (l.length - n)

/-! ## The dialogue controller: operations

Every operation is a pure function of the session state; the fixed
navigation-state inputs `pdfContent` and `topics` are explicit parameters.
React's queued state updates are resolved sequentially, and a `setTimeout`
continuation (the advance-to-next-question stage) reads the values its
closure captured at the render that scheduled it: `generateNextQuestionFrom`
therefore takes the captured (`readQn`, `readDifficulty`, `readHistory`)
separately from the state it updates. -/

/-- `Math.min(Math.floor((currentQuestionNumber - 1) / 3), topics.length - 1)`
(for `questionNumber ≥ 1` both operands are the JS values). -/
def focusTopicIndex (topics : List String) (questionNumber : Nat) : Nat :=
  min ((questionNumber - 1) / 3) (topics.length - 1)

/-- The topic argument passed to the question oracle:
`topics[Math.min(...)] || topics[0]` (the `||` falls back to `topics[0]` when
the selected entry is `undefined` or the empty string). -/
def focusTopicArg (topics : List String) (questionNumber : Nat) : Option String :=
  match topics with
  | [] => none
  | _ :: _ =>
    match topics.get? (focusTopicIndex topics questionNumber) with
    | some t => if t = "" then topics.get? 0 else some t
    | none => topics.get? 0

/-- `new Set([...prev, t])`: insertion-ordered set insert. -/
def jsSetInsert (t : String) (s : List String) : List String :=
  if t ∈ s then s else s ++ [t]

/-- The explored-topics update at the head of `generateNextQuestion`: when
topics exist and the selected entry is truthy, it is added to the set. -/
def markExploredSet (topics : List String) (readQn : Nat) (s : List String) :
    List String :=
  match topics with
  | [] => s
  | _ :: _ =>
    match topics.get? (focusTopicIndex topics readQn) with
    | some t => if t = "" then s else jsSetInsert t s
    | none => s

/-- The explored-topics marking applied to the state. -/
def markExplored (topics : List String) (readQn : Nat) (st : SessionState) :
    SessionState :=
  { st with exploredTopics := markExploredSet topics readQn st.exploredTopics }

/-- Appending a freshly generated question to the state. -/
def questionAppended (q : String) (st : SessionState) : SessionState :=
  { st with
    currentQuestionText := q
    messages := st.messages ++ [⟨.aiQuestion, q⟩]
    conversationHistory := st.conversationHistory ++ [⟨.assistant, q, .question⟩] }

/-- Embeds `generateNextQuestion()`.  `readQn`, `readDifficulty` and
`readHistory` are the values of `currentQuestionNumber`, `currentDifficulty`
and `conversationHistory` captured by the closure that runs the operation;
`st` is the state its functional updates apply to.  `qRes` is the outcome of
the `generateSocraticQuestion` oracle call. -/
def generateNextQuestionFrom (content : String) (topics : List String)
    (readQn readDifficulty : Nat) (readHistory : List ConversationMessage)
    (st : SessionState) (qRes : Except Unit String) :
    SessionState × List OracleCall :=
  if content = "" then (st, [])
  else
    let st1 := markExplored topics readQn st
    let call := OracleCall.generateSocraticQuestion content readDifficulty
      readHistory (focusTopicArg topics readQn)
    match qRes with
    | .error _ => (st1, [call])
    | .ok q => (questionAppended q st1, [call])

/-- `generateNextQuestion()` run directly on a state (reads and updates
agree — the retry action and the mount-time call). -/
def generateNextQuestion (content : String) (topics : List String)
    (st : SessionState) (qRes : Except Unit String) :
    SessionState × List OracleCall :=
  generateNextQuestionFrom content topics st.currentQuestionNumber
    st.currentDifficulty st.conversationHistory st qRes

/-- Prepend already-issued oracle calls to the result of a chained
operation. -/
def prependCalls (cs : List OracleCall) (p : SessionState × List OracleCall) :
    SessionState × List OracleCall :=
  (p.1, cs ++ p.2)

/-- The state after a successful intro explanation is appended. -/
def introAppended (intro : String) (st : SessionState) : SessionState :=
  { st with
    messages := st.messages ++ [⟨.aiExplanation, intro⟩]
    conversationHistory :=
      st.conversationHistory ++ [⟨.assistant, intro, .explanation⟩]
    hasShownIntro := true }

/-- Embeds `showIntroExplanation()`: the intro oracle call, the appended
explanation turn, then the chained `generateNextQuestion` (whose closure
captured the pre-intro state values). -/
def showIntroExplanation (content : String) (topics : List String)
    (st : SessionState) (introRes : Except Unit String)
    (qRes : Except Unit String) : SessionState × List OracleCall :=
  if content = "" then (st, [])
  else
    match introRes with
    | .error _ =>
      (st, [.generateIntroExplanation content st.currentDifficulty topics.head?])
    | .ok intro =>
      prependCalls
        [.generateIntroExplanation content st.currentDifficulty topics.head?]
        (generateNextQuestionFrom content topics st.currentQuestionNumber
          st.currentDifficulty st.conversationHistory (introAppended intro st) qRes)

/-- The user answer turn appended to messages and history (this happens
before the evaluation oracle call). -/
def answerAppended (answer : String) (st : SessionState) : SessionState :=
  { st with
    messages := st.messages ++ [⟨.userAnswer, answer⟩]
    conversationHistory := st.conversationHistory ++ [⟨.user, answer, .answer⟩] }

/-- `[...prev, quality].slice(-3)`: the window with the new quality pushed,
bounded to the last 3. -/
def pushedWindow (q : Quality) (w : List Quality) : List Quality :=
  lastN 3 (w ++ [q])

/-- The quality-window push and difficulty check inside `handleSubmitAnswer`:
the new quality is appended, the window bounded to the last 3, and — when
the bounded window has 3 entries — `checkAndAdjustDifficulty` runs (clearing
the window if it fired).  `readDifficulty` is the difficulty captured by the
submit closure. -/
def windowDifficultyUpdated (q : Quality) (readDifficulty : Nat)
    (st : SessionState) : SessionState :=
  { st with
    currentDifficulty :=
      if (pushedWindow q st.recentQualities).length = 3 then
        (checkAndAdjustDifficulty (pushedWindow q st.recentQualities)
          readDifficulty).1
      else st.currentDifficulty
    recentQualities :=
      if (pushedWindow q st.recentQualities).length = 3 then
        qualityWindowAfter (pushedWindow q st.recentQualities) readDifficulty
      else pushedWindow q st.recentQualities }

/-- An assistant explanation-tagged turn appended to messages and history
(used both for the strong-path explanation and for feedback). -/
def explanationAppended (text : String) (st : SessionState) : SessionState :=
  { st with
    messages := st.messages ++ [⟨.aiExplanation, text⟩]
    conversationHistory :=
      st.conversationHistory ++ [⟨.assistant, text, .explanation⟩] }

/-- The `setTimeout` advance stage shared by the strong path and the
third-attempt path: reset attempts and hints, increment the question number,
then run `generateNextQuestion` (with its closure's captured reads). -/
def advanceToNext (content : String) (topics : List String)
    (readQn readDifficulty : Nat) (readHistory : List ConversationMessage)
    (st : SessionState) (qRes : Except Unit String) :
    SessionState × List OracleCall :=
  generateNextQuestionFrom content topics readQn readDifficulty readHistory
    { st with
      currentAttempts := 0
      hintsUsed := 0
      showHintButton := false
      currentQuestionNumber := st.currentQuestionNumber + 1 } qRes

/-- The `evaluateResponse` oracle call issued by a submit turn (the closure's
captured question, difficulty and content). -/
def submitEvalCall (content : String) (st : SessionState) (answer : String) :
    OracleCall :=
  .evaluateResponse st.currentQuestionText answer content st.currentDifficulty

/-- The `generateExplanation` oracle call issued on a strong evaluation. -/
def submitExplCall (content : String) (st : SessionState) (answer : String) :
    OracleCall :=
  .generateExplanation st.currentQuestionText answer content st.currentDifficulty

/-- The committed state after a strong evaluation and its explanation: the
answer turn, the window/difficulty update, and the explanation turn. -/
def afterStrongExplanation (answer : String) (ev : Evaluation) (expl : String)
    (st : SessionState) : SessionState :=
  explanationAppended expl
    (windowDifficultyUpdated ev.quality st.currentDifficulty
      (answerAppended answer st))

/-- The committed state after a non-strong evaluation: the answer turn, the
window/difficulty update, the feedback turn, the attempt increment
(`newAttempts = currentAttempts + 1`, read from the submit closure) and the
hint button. -/
def afterFeedback (answer : String) (ev : Evaluation) (st : SessionState) :
    SessionState :=
  { explanationAppended ev.feedback
      (windowDifficultyUpdated ev.quality st.currentDifficulty
        (answerAppended answer st)) with
    currentAttempts := st.currentAttempts + 1
    showHintButton := true }

/-- Embeds `handleSubmitAnswer()`.  `answer` is the textarea content;
`evalRes`, `explRes` and `nextQRes` are the outcomes of the (up to three)
oracle calls the turn may issue. -/
def handleSubmitAnswer (content : String) (topics : List String)
    (st : SessionState) (answer : String) (evalRes : Except Unit Evaluation)
    (explRes : Except Unit String) (nextQRes : Except Unit String) :
    SessionState × List OracleCall :=
  if (jsTrim answer).length < 20 then (st, [])
  else if st.currentQuestionText = "" then (st, [])
  else if content = "" then (st, [])
  else
    match evalRes with
    | .error _ => (answerAppended answer st, [submitEvalCall content st answer])
    | .ok ev =>
      if ev.quality = .strong then
        match explRes with
        | .error _ =>
          (windowDifficultyUpdated ev.quality st.currentDifficulty
              (answerAppended answer st),
            [submitEvalCall content st answer, submitExplCall content st answer])
        | .ok expl =>
          prependCalls
            [submitEvalCall content st answer, submitExplCall content st answer]
            (advanceToNext content topics st.currentQuestionNumber
              st.currentDifficulty st.conversationHistory
              (afterStrongExplanation answer ev expl st) nextQRes)
      else
        if 3 ≤ st.currentAttempts + 1 then
          prependCalls [submitEvalCall content st answer]
            (advanceToNext content topics st.currentQuestionNumber
              st.currentDifficulty st.conversationHistory
              (afterFeedback answer ev st) nextQRes)
        else (afterFeedback answer ev st, [submitEvalCall content st answer])

/-- The UI content of a hint message. -/
def hintMessageContent (n : Nat) (hint : String) : String :=
  "💡 Hint " ++ toString n ++ "/3: " ++ hint

/-- Embeds `handleGetHint()`.  `answerDraft` is the current textarea content
(`userAnswer || ''`); `hintRes` is the outcome of the `generateHint` call.
The hint is appended to `messages` only — never to `conversationHistory`. -/
def handleGetHint (content : String) (st : SessionState) (answerDraft : String)
    (hintRes : Except Unit String) : SessionState × List OracleCall :=
  if 3 ≤ st.hintsUsed then (st, [])
  else if st.currentQuestionText = "" then (st, [])
  else if content = "" then (st, [])
  else
    let call := OracleCall.generateHint st.currentQuestionText answerDraft
      (st.hintsUsed + 1) content st.currentDifficulty
    match hintRes with
    | .error _ => (st, [call])
    | .ok h =>
      ({ st with
          messages :=
            st.messages ++ [⟨.aiExplanation, hintMessageContent (st.hintsUsed + 1) h⟩]
          hintsUsed := st.hintsUsed + 1
          showHintButton :=
            if 3 ≤ st.hintsUsed + 1 then false else st.showHintButton },
        [call])

/-- Embeds `handleNewSession()` (after the user confirms): every session
field is reset to its initial value (`hasShownIntro` is not reset — the
component navigates away instead). -/
def handleNewSession (st : SessionState) : SessionState :=
  { st with
    messages := []
    conversationHistory := []
    currentQuestionNumber := 1
    currentQuestionText := ""
    currentAttempts := 0
    hintsUsed := 0
    showHintButton := false
    currentDifficulty := 1
    recentQualities := []
    exploredTopics := [] }

/-- Whether an oracle outcome is a success. -/
def exceptOk : Except Unit α → Bool
  | .ok _ => true
  | .error _ => false

/-- A concrete session state with a pending question, obtained by running
`generateNextQuestion` once from the initial state (used by witnesses and
counterexamples). -/
def statePending : SessionState :=
  (generateNextQuestion "c" [] initialState (.ok "Is this a question?")).1

/-! ## Reachable session states -/

/-- The session states reachable from the initial state through the
controller's operations, for a fixed `content` and `topics` (the oracle
outcomes and user inputs are arbitrary). -/
inductive Reachable (content : String) (topics : List String) :
    SessionState → Prop where
  | init : Reachable content topics initialState
  | intro (st : SessionState) (introRes qRes : Except Unit String) :
      Reachable content topics st →
      Reachable content topics (showIntroExplanation content topics st introRes qRes).1
  | nextQ (st : SessionState) (qRes : Except Unit String) :
      Reachable content topics st →
      Reachable content topics (generateNextQuestion content topics st qRes).1
  | submit (st : SessionState) (answer : String) (evalRes : Except Unit Evaluation)
      (explRes nextQRes : Except Unit String) :
      Reachable content topics st →
      Reachable content topics
        (handleSubmitAnswer content topics st answer evalRes explRes nextQRes).1
  | hint (st : SessionState) (answerDraft : String) (hintRes : Except Unit String) :
      Reachable content topics st →
      Reachable content topics (handleGetHint content st answerDraft hintRes).1
  | reset (st : SessionState) :
      Reachable content topics st →
      Reachable content topics (handleNewSession st)

/-- Equality of the five scalar session fields read by the difficulty policy,
the attempt counter and the question numbering. -/
def ScalarsEq (s₁ s₂ : SessionState) : Prop :=
  s₁.recentQualities = s₂.recentQualities ∧
  s₁.currentDifficulty = s₂.currentDifficulty ∧
  s₁.currentAttempts = s₂.currentAttempts ∧
  s₁.hintsUsed = s₂.hintsUsed ∧
  s₁.currentQuestionNumber = s₂.currentQuestionNumber

/-- The invariant carried by every reachable state: the difficulty stays in
`[1,4]`, and a pending question implies the session has content. -/
def Inv (content : String) (st : SessionState) : Prop :=
  1 ≤ st.currentDifficulty ∧ st.currentDifficulty ≤ 4 ∧
  (st.currentQuestionText ≠ "" → content ≠ "")

/-! ## Frame and bounds lemmas -/

lemma scalarsEq_refl (s : SessionState) : ScalarsEq s s :=
  ⟨rfl, rfl, rfl, rfl, rfl⟩

/-- `generateNextQuestionFrom` never touches the quality window, difficulty,
attempt, hint or question counters. -/
lemma gnqf_scalars (content : String) (topics : List String) (qn d : Nat)
    (hist : List ConversationMessage) (st : SessionState)
    (r : Except Unit String) :
    ScalarsEq (generateNextQuestionFrom content topics qn d hist st r).1 st := by
  unfold generateNextQuestionFrom
  split
  · exact scalarsEq_refl st
  · cases r with
    | error e => exact ⟨rfl, rfl, rfl, rfl, rfl⟩
    | ok q => exact ⟨rfl, rfl, rfl, rfl, rfl⟩

lemma gnqf_content_empty (topics : List String) (qn d : Nat)
    (hist : List ConversationMessage) (st : SessionState)
    (r : Except Unit String) :
    generateNextQuestionFrom "" topics qn d hist st r = (st, []) := rfl

/-- The advance stage resets attempts and hints, increments the question
number and leaves the window and difficulty alone. -/
lemma advanceToNext_fields (content : String) (topics : List String)
    (qn d : Nat) (hist : List ConversationMessage) (st : SessionState)
    (r : Except Unit String) :
    (advanceToNext content topics qn d hist st r).1.currentDifficulty
        = st.currentDifficulty ∧
    (advanceToNext content topics qn d hist st r).1.recentQualities
        = st.recentQualities ∧
    (advanceToNext content topics qn d hist st r).1.currentAttempts = 0 ∧
    (advanceToNext content topics qn d hist st r).1.hintsUsed = 0 ∧
    (advanceToNext content topics qn d hist st r).1.currentQuestionNumber
        = st.currentQuestionNumber + 1 := by
  unfold advanceToNext
  have h := gnqf_scalars content topics qn d hist
    { st with
      currentAttempts := 0
      hintsUsed := 0
      showHintButton := false
      currentQuestionNumber := st.currentQuestionNumber + 1 } r
  exact ⟨h.2.1, h.1, h.2.2.1, h.2.2.2.1, h.2.2.2.2⟩

/-- With non-empty content, `generateNextQuestionFrom` issues exactly one
`generateSocraticQuestion` call, with the captured difficulty and history and
the focus-topic argument. -/
lemma gnqf_calls (content : String) (topics : List String) (qn d : Nat)
    (hist : List ConversationMessage) (st : SessionState)
    (r : Except Unit String) (hc : ¬ content = "") :
    (generateNextQuestionFrom content topics qn d hist st r).2 =
      [.generateSocraticQuestion content d hist (focusTopicArg topics qn)] := by
  unfold generateNextQuestionFrom
  rw [if_neg hc]
  cases r with
  | error e => rfl
  | ok q => rfl

/-- `generateNextQuestionFrom` only ever appends to the conversation
history. -/
lemma gnqf_history_append (content : String) (topics : List String)
    (qn d : Nat) (hist : List ConversationMessage) (st : SessionState)
    (r : Except Unit String) :
    ∃ tail, (generateNextQuestionFrom content topics qn d hist st r).1.conversationHistory
      = st.conversationHistory ++ tail := by
  unfold generateNextQuestionFrom
  split
  · exact ⟨[], (List.append_nil _).symm⟩
  · cases r with
    | error e => exact ⟨[], (List.append_nil _).symm⟩
    | ok q => exact ⟨[⟨.assistant, q, .question⟩], rfl⟩

/-- When the evaluation oracle call fails, the submit turn commits exactly
the user's answer turn and issues exactly the evaluation call. -/
lemma submit_error_effects (content : String) (topics : List String)
    (st : SessionState) (answer : String) (u : Unit)
    (explRes nextQRes : Except Unit String)
    (h20 : ¬ (jsTrim answer).length < 20) (hq : ¬ st.currentQuestionText = "")
    (hc : ¬ content = "") :
    handleSubmitAnswer content topics st answer (.error u) explRes nextQRes =
      (answerAppended answer st, [submitEvalCall content st answer]) := by
  unfold handleSubmitAnswer
  rw [if_neg h20, if_neg hq, if_neg hc]

/-- The scalar outcome of a successful submit turn, as an explicit function
of the pre-turn scalars, the evaluation quality and whether the explanation
call succeeded. -/
lemma submit_scalars (content : String) (topics : List String)
    (st : SessionState) (answer : String) (ev : Evaluation)
    (explRes nextQRes : Except Unit String)
    (h20 : ¬ (jsTrim answer).length < 20) (hq : ¬ st.currentQuestionText = "")
    (hc : ¬ content = "") :
    (handleSubmitAnswer content topics st answer (.ok ev) explRes nextQRes).1.recentQualities
        = (if (pushedWindow ev.quality st.recentQualities).length = 3 then
            qualityWindowAfter (pushedWindow ev.quality st.recentQualities)
              st.currentDifficulty
          else pushedWindow ev.quality st.recentQualities) ∧
    (handleSubmitAnswer content topics st answer (.ok ev) explRes nextQRes).1.currentDifficulty
        = (if (pushedWindow ev.quality st.recentQualities).length = 3 then
            (checkAndAdjustDifficulty (pushedWindow ev.quality st.recentQualities)
              st.currentDifficulty).1
          else st.currentDifficulty) ∧
    (handleSubmitAnswer content topics st answer (.ok ev) explRes nextQRes).1.currentAttempts
        = (if ev.quality = Quality.strong then
            (if exceptOk explRes then 0 else st.currentAttempts)
          else if 3 ≤ st.currentAttempts + 1 then 0 else st.currentAttempts + 1) ∧
    (handleSubmitAnswer content topics st answer (.ok ev) explRes nextQRes).1.hintsUsed
        = (if ev.quality = Quality.strong then
            (if exceptOk explRes then 0 else st.hintsUsed)
          else if 3 ≤ st.currentAttempts + 1 then 0 else st.hintsUsed) ∧
    (handleSubmitAnswer content topics st answer (.ok ev) explRes nextQRes).1.currentQuestionNumber
        = (if ev.quality = Quality.strong then
            (if exceptOk explRes then st.currentQuestionNumber + 1
              else st.currentQuestionNumber)
          else if 3 ≤ st.currentAttempts + 1 then st.currentQuestionNumber + 1
            else st.currentQuestionNumber) := by
  unfold handleSubmitAnswer
  rw [if_neg h20, if_neg hq, if_neg hc]
  dsimp only
  by_cases hstrong : ev.quality = Quality.strong
  · simp only [if_pos hstrong]
    cases explRes with
    | error u => exact ⟨rfl, rfl, rfl, rfl, rfl⟩
    | ok expl =>
      have ha := advanceToNext_fields content topics st.currentQuestionNumber
        st.currentDifficulty st.conversationHistory
        (afterStrongExplanation answer ev expl st) nextQRes
      simp only [prependCalls]
      exact ⟨ha.2.1, ha.1, ha.2.2.1, ha.2.2.2.1, ha.2.2.2.2⟩
  · simp only [if_neg hstrong]
    by_cases hatt : 3 ≤ st.currentAttempts + 1
    · simp only [if_pos hatt]
      have ha := advanceToNext_fields content topics st.currentQuestionNumber
        st.currentDifficulty st.conversationHistory
        (afterFeedback answer ev st) nextQRes
      simp only [prependCalls]
      exact ⟨ha.2.1, ha.1, ha.2.2.1, ha.2.2.2.1, ha.2.2.2.2⟩
    · simp only [if_neg hatt]
      exact ⟨rfl, rfl, rfl, rfl, rfl⟩

/-- The state with a pending question is reachable. -/
lemma statePending_reachable : Reachable "c" [] statePending :=
  Reachable.nextQ initialState (.ok "Is this a question?") Reachable.init

/-- With non-empty content, the advance stage issues exactly the chained
question call. -/
lemma advanceToNext_calls (content : String) (topics : List String)
    (qn d : Nat) (hist : List ConversationMessage) (st : SessionState)
    (r : Except Unit String) (hc : ¬ content = "") :
    (advanceToNext content topics qn d hist st r).2 =
      [.generateSocraticQuestion content d hist (focusTopicArg topics qn)] := by
  unfold advanceToNext
  exact gnqf_calls content topics qn d hist _ r hc

/-- The advance stage only ever appends to the conversation history. -/
lemma advanceToNext_history (content : String) (topics : List String)
    (qn d : Nat) (hist : List ConversationMessage) (st : SessionState)
    (r : Except Unit String) :
    ∃ tail, (advanceToNext content topics qn d hist st r).1.conversationHistory
      = st.conversationHistory ++ tail := by
  unfold advanceToNext
  exact gnqf_history_append content topics qn d hist _ r

/-- A submit turn that passes the guards appends the user's answer turn to
the history (followed only by further appended turns). -/
lemma submit_history (content : String) (topics : List String)
    (st : SessionState) (answer : String) (evalRes : Except Unit Evaluation)
    (explRes nextQRes : Except Unit String)
    (h20 : ¬ (jsTrim answer).length < 20) (hq : ¬ st.currentQuestionText = "")
    (hc : ¬ content = "") :
    ∃ rest, (handleSubmitAnswer content topics st answer evalRes explRes nextQRes).1.conversationHistory
      = st.conversationHistory ++ ⟨Role.user, answer, TurnType.answer⟩ :: rest := by
  unfold handleSubmitAnswer
  rw [if_neg h20, if_neg hq, if_neg hc]
  cases evalRes with
  | error u => exact ⟨[], rfl⟩
  | ok ev =>
    dsimp only
    by_cases hstrong : ev.quality = Quality.strong
    · rw [if_pos hstrong]
      cases explRes with
      | error u => exact ⟨[], rfl⟩
      | ok expl =>
        obtain ⟨tail, htail⟩ := advanceToNext_history content topics
          st.currentQuestionNumber st.currentDifficulty st.conversationHistory
          (afterStrongExplanation answer ev expl st) nextQRes
        refine ⟨⟨Role.assistant, expl, TurnType.explanation⟩ :: tail, ?_⟩
        simp only [prependCalls]
        rw [htail]
        show ((st.conversationHistory ++ [⟨Role.user, answer, TurnType.answer⟩])
            ++ [⟨Role.assistant, expl, TurnType.explanation⟩]) ++ tail = _
        simp [List.append_assoc]
    · rw [if_neg hstrong]
      by_cases hatt : 3 ≤ st.currentAttempts + 1
      · rw [if_pos hatt]
        obtain ⟨tail, htail⟩ := advanceToNext_history content topics
          st.currentQuestionNumber st.currentDifficulty st.conversationHistory
          (afterFeedback answer ev st) nextQRes
        refine ⟨⟨Role.assistant, ev.feedback, TurnType.explanation⟩ :: tail, ?_⟩
        simp only [prependCalls]
        rw [htail]
        show ((st.conversationHistory ++ [⟨Role.user, answer, TurnType.answer⟩])
            ++ [⟨Role.assistant, ev.feedback, TurnType.explanation⟩]) ++ tail = _
        simp [List.append_assoc]
      · rw [if_neg hatt]
        refine ⟨[⟨Role.assistant, ev.feedback, TurnType.explanation⟩], ?_⟩
        show ((st.conversationHistory ++ [⟨Role.user, answer, TurnType.answer⟩])
            ++ [⟨Role.assistant, ev.feedback, TurnType.explanation⟩]) = _
        simp [List.append_assoc]

/-- Requesting a hint never changes the difficulty. -/
lemma getHint_difficulty (content : String) (st : SessionState)
    (answerDraft : String) (hintRes : Except Unit String) :
    (handleGetHint content st answerDraft hintRes).1.currentDifficulty
      = st.currentDifficulty := by
  unfold handleGetHint
  split
  · rfl
  split
  · rfl
  split
  · rfl
  cases hintRes with
  | error e => rfl
  | ok h => rfl

/-- The intro stage never changes the difficulty. -/
lemma intro_difficulty (content : String) (topics : List String)
    (st : SessionState) (introRes qRes : Except Unit String) :
    (showIntroExplanation content topics st introRes qRes).1.currentDifficulty
      = st.currentDifficulty := by
  unfold showIntroExplanation
  split
  · rfl
  cases introRes with
  | error e => rfl
  | ok intro =>
    simp only [prependCalls]
    exact (gnqf_scalars content topics st.currentQuestionNumber
      st.currentDifficulty st.conversationHistory (introAppended intro st) qRes).2.1

/-- The difficulty policy never leaves `[1,4]`. -/
lemma checkAndAdjust_bounds (w : List Quality) {d : Nat} (h1 : 1 ≤ d)
    (h4 : d ≤ 4) :
    1 ≤ (checkAndAdjustDifficulty w d).1 ∧
      (checkAndAdjustDifficulty w d).1 ≤ 4 := by
  unfold checkAndAdjustDifficulty
  split
  · split
    · next h =>
      simp only [Bool.and_eq_true, decide_eq_true_eq] at h
      exact ⟨by omega, by omega⟩
    · split
      · next h =>
        simp only [Bool.and_eq_true, decide_eq_true_eq] at h
        exact ⟨by omega, by omega⟩
      · exact ⟨h1, h4⟩
  · exact ⟨h1, h4⟩

/-- The difficulty policy changes the difficulty by exactly `+1` (guarded by
`d < 4`), by exactly `-1` (guarded by `d > 1`), or not at all. -/
lemma checkAndAdjust_delta (w : List Quality) (d : Nat) :
    (checkAndAdjustDifficulty w d).1 = d ∨
    ((checkAndAdjustDifficulty w d).1 = d + 1 ∧ d < 4) ∨
    ((checkAndAdjustDifficulty w d).1 = d - 1 ∧ 1 < d) := by
  unfold checkAndAdjustDifficulty
  split
  · split
    · next h =>
      simp only [Bool.and_eq_true, decide_eq_true_eq] at h
      exact Or.inr (Or.inl ⟨rfl, h.2⟩)
    · split
      · next h =>
        simp only [Bool.and_eq_true, decide_eq_true_eq] at h
        exact Or.inr (Or.inr ⟨rfl, h.2⟩)
      · exact Or.inl rfl
  · exact Or.inl rfl

/-- The window-and-difficulty update keeps the difficulty inside `[1,4]`. -/
lemma wdu_difficulty_bounds (q : Quality) {readD : Nat} (st : SessionState)
    (h1 : 1 ≤ readD) (h4 : readD ≤ 4) (h1' : 1 ≤ st.currentDifficulty)
    (h4' : st.currentDifficulty ≤ 4) :
    1 ≤ (windowDifficultyUpdated q readD st).currentDifficulty ∧
      (windowDifficultyUpdated q readD st).currentDifficulty ≤ 4 := by
  unfold windowDifficultyUpdated
  dsimp only
  split
  · exact checkAndAdjust_bounds _ h1 h4
  · exact ⟨h1', h4'⟩

/-! ## The session invariant -/

lemma inv_init (content : String) : Inv content initialState :=
  ⟨by decide, by decide, fun h => absurd rfl h⟩

lemma inv_gnqf {content : String} {st : SessionState} (topics : List String)
    (qn d : Nat) (hist : List ConversationMessage) (r : Except Unit String)
    (h : Inv content st) :
    Inv content (generateNextQuestionFrom content topics qn d hist st r).1 := by
  by_cases hc : content = ""
  · subst hc
    rw [gnqf_content_empty]
    exact h
  · obtain ⟨-, hd, -, -, -⟩ := gnqf_scalars content topics qn d hist st r
    exact ⟨hd ▸ h.1, hd ▸ h.2.1, fun _ => hc⟩

lemma inv_introStep {content : String} {st : SessionState}
    (topics : List String) (introRes qRes : Except Unit String)
    (h : Inv content st) :
    Inv content (showIntroExplanation content topics st introRes qRes).1 := by
  unfold showIntroExplanation
  split
  · exact h
  · cases introRes with
    | error e => exact h
    | ok intro =>
      exact inv_gnqf topics st.currentQuestionNumber st.currentDifficulty
        st.conversationHistory qRes ⟨h.1, h.2.1, h.2.2⟩

lemma inv_nextQStep {content : String} {st : SessionState}
    (topics : List String) (qRes : Except Unit String) (h : Inv content st) :
    Inv content (generateNextQuestion content topics st qRes).1 :=
  inv_gnqf topics st.currentQuestionNumber st.currentDifficulty
    st.conversationHistory qRes h

lemma inv_submitStep {content : String} {st : SessionState}
    (topics : List String) (answer : String) (evalRes : Except Unit Evaluation)
    (explRes nextQRes : Except Unit String) (h : Inv content st) :
    Inv content
      (handleSubmitAnswer content topics st answer evalRes explRes nextQRes).1 := by
  unfold handleSubmitAnswer
  split
  · exact h
  split
  · exact h
  split
  · exact h
  next hc =>
  cases evalRes with
  | error e => exact ⟨h.1, h.2.1, fun _ => hc⟩
  | ok ev =>
    have hb := wdu_difficulty_bounds ev.quality (answerAppended answer st)
      h.1 h.2.1 h.1 h.2.1
    dsimp only
    split
    · cases explRes with
      | error e => exact ⟨hb.1, hb.2, fun _ => hc⟩
      | ok expl =>
        have ha := advanceToNext_fields content topics
          st.currentQuestionNumber st.currentDifficulty st.conversationHistory
          (afterStrongExplanation answer ev expl st) nextQRes
        simp only [prependCalls]
        refine ⟨?_, ?_, fun _ => hc⟩
        · rw [ha.1]; exact hb.1
        · rw [ha.1]; exact hb.2
    · split
      · have ha := advanceToNext_fields content topics
          st.currentQuestionNumber st.currentDifficulty st.conversationHistory
          (afterFeedback answer ev st) nextQRes
        simp only [prependCalls]
        refine ⟨?_, ?_, fun _ => hc⟩
        · rw [ha.1]; exact hb.1
        · rw [ha.1]; exact hb.2
      · exact ⟨hb.1, hb.2, fun _ => hc⟩

lemma inv_hintStep {content : String} {st : SessionState}
    (answerDraft : String) (hintRes : Except Unit String) (h : Inv content st) :
    Inv content (handleGetHint content st answerDraft hintRes).1 := by
  unfold handleGetHint
  split
  · exact h
  split
  · exact h
  split
  · exact h
  cases hintRes with
  | error e => exact h
  | ok hint => exact ⟨h.1, h.2.1, h.2.2⟩

lemma inv_resetStep (content : String) (st : SessionState) :
    Inv content (handleNewSession st) :=
  ⟨Nat.le_refl 1, by show (1 : Nat) ≤ 4; decide, fun hq => absurd rfl hq⟩

/-- Every reachable state satisfies the invariant. -/
lemma reachable_inv {content : String} {topics : List String}
    {st : SessionState} (h : Reachable content topics st) : Inv content st := by
  induction h with
  | init => exact inv_init content
  | intro st introRes qRes _ ih => exact inv_introStep topics introRes qRes ih
  | nextQ st qRes _ ih => exact inv_nextQStep topics qRes ih
  | submit st answer evalRes explRes nextQRes _ ih =>
    exact inv_submitStep topics answer evalRes explRes nextQRes ih
  | hint st answerDraft hintRes _ ih => exact inv_hintStep answerDraft hintRes ih
  | reset st _ => exact inv_resetStep content st

/-- The policy's Boolean guards, rewritten as propositions (for a window of
exactly 3 labels). -/
lemma checkAndAdjust_eq (w : List Quality) (d : Nat) (hw : w.length = 3) :
    checkAndAdjustDifficulty w d =
      if (∀ q ∈ w, q = Quality.strong) ∧ d < 4 then (d + 1, true)
      else if (∀ q ∈ w, q = Quality.needs_work) ∧ 1 < d then (d - 1, true)
      else (d, false) := by
  unfold checkAndAdjustDifficulty
  rw [if_pos hw]
  by_cases h1 : (∀ q ∈ w, q = Quality.strong) ∧ d < 4
  · rw [if_pos h1, if_pos]
    simp only [Bool.and_eq_true, List.all_eq_true, beq_iff_eq, decide_eq_true_eq]
    exact h1
  · rw [if_neg h1]
    have hb1 : ¬ (w.all (fun q => q == Quality.strong) && decide (d < 4)) = true := by
      simp only [Bool.and_eq_true, List.all_eq_true, beq_iff_eq, decide_eq_true_eq]
      exact h1
    rw [if_neg hb1]
    by_cases h2 : (∀ q ∈ w, q = Quality.needs_work) ∧ 1 < d
    · rw [if_pos h2, if_pos]
      simp only [Bool.and_eq_true, List.all_eq_true, beq_iff_eq, decide_eq_true_eq]
      exact h2
    · rw [if_neg h2]
      have hb2 : ¬ (w.all (fun q => q == Quality.needs_work) && decide (d > 1)) = true := by
        simp only [Bool.and_eq_true, List.all_eq_true, beq_iff_eq, decide_eq_true_eq]
        exact h2
      rw [if_neg hb2]

/-! ## String lemmas for the adapter theorems -/

lemma dropWhile_append_left (p : α → Bool) (l₁ l₂ : List α)
    (h : l₁.dropWhile p ≠ []) :
    (l₁ ++ l₂).dropWhile p = l₁.dropWhile p ++ l₂ := by
  induction l₁ with
  | nil => exact absurd rfl h
  | cons a t ih =>
    rw [List.cons_append, List.dropWhile_cons, List.dropWhile_cons]
    by_cases hp : p a = true
    · rw [if_pos hp, if_pos hp]
      rw [List.dropWhile_cons, if_pos hp] at h
      exact ih h
    · rw [if_neg hp, if_neg hp, List.cons_append]

lemma mem_of_startsWithL {pat l : List Char}
    (h : startsWithL pat l = true) : ∀ c ∈ pat, c ∈ l := by
  induction pat generalizing l with
  | nil => intro c hc; exact absurd hc (List.not_mem_nil c)
  | cons p ps ih =>
    cases l with
    | nil => exact absurd h (by simp [startsWithL, List.isEmpty])
    | cons a t =>
      rw [startsWithL, Bool.and_eq_true, decide_eq_true_eq] at h
      intro c hc
      rcases List.mem_cons.mp hc with hc | hc
      · exact List.mem_cons.mpr (Or.inl (hc.trans h.1))
      · exact List.mem_cons.mpr (Or.inr (ih h.2 c hc))

lemma mem_of_containsSubL {pat l : List Char}
    (h : containsSubL pat l = true) : ∀ c ∈ pat, c ∈ l := by
  induction l with
  | nil =>
    intro c hc
    rw [containsSubL, List.isEmpty_iff] at h
    rw [h] at hc
    exact absurd hc (List.not_mem_nil c)
  | cons a t ih =>
    rw [containsSubL, Bool.or_eq_true] at h
    intro c hc
    rcases h with h | h
    · exact mem_of_startsWithL h c hc
    · exact List.mem_cons.mpr (Or.inr (ih h c hc))

lemma containsSubL_append_right (pat l₁ l₂ : List Char)
    (h : containsSubL pat l₂ = true) :
    containsSubL pat (l₁ ++ l₂) = true := by
  induction l₁ with
  | nil => exact h
  | cons a t ih =>
    rw [List.cons_append, containsSubL, Bool.or_eq_true]
    exact Or.inr ih

lemma containsSub_append_right (a b pat : String)
    (h : containsSub b pat = true) : containsSub (a ++ b) pat = true := by
  unfold containsSub at h ⊢
  rw [String.data_append]
  exact containsSubL_append_right _ _ _ h

lemma jsToLower_append (a b : String) :
    jsToLower (a ++ b) = jsToLower a ++ jsToLower b := by
  unfold jsToLower toLowerL
  rw [String.data_append, List.map_append]
  rfl

lemma toLowerChar_ws {c : Char} (h : isJsWs c = true) : toLowerChar c = c := by
  have hm : c ∈ jsWsChars := by
    rw [isJsWs, decide_eq_true_eq] at h
    exact h
  fin_cases hm <;> decide

lemma nonws_of_mem_lower {f : List Char} {b : Char} (hb : isJsWs b = false)
    (h : b ∈ toLowerL f) : ∃ c ∈ f, isJsWs c = false := by
  rw [toLowerL, List.mem_map] at h
  obtain ⟨c, hc, hlc⟩ := h
  refine ⟨c, hc, ?_⟩
  cases hws : isJsWs c with
  | false => rfl
  | true =>
    rw [toLowerChar_ws hws] at hlc
    rw [hlc] at hws
    rw [hws] at hb
    exact absurd hb (by decide)

/-- Feedback that triggers the explanation-phrase check necessarily contains
a non-whitespace character. -/
lemma exists_nonws_of_hasExpl {f : String}
    (h : hasExplanationPhrases f = true) :
    ∃ c ∈ f.data, isJsWs c = false := by
  rw [hasExplanationPhrases, List.any_eq_true] at h
  obtain ⟨p, hp, hc⟩ := h
  fin_cases hp
  · exact nonws_of_mem_lower (b := 't') (by decide)
      (mem_of_containsSubL hc 't' (by decide))
  · exact nonws_of_mem_lower (b := 't') (by decide)
      (mem_of_containsSubL hc 't' (by decide))
  · exact nonws_of_mem_lower (b := 't') (by decide)
      (mem_of_containsSubL hc 't' (by decide))
  · exact nonws_of_mem_lower (b := 'i') (by decide)
      (mem_of_containsSubL hc 'i' (by decide))
  · exact nonws_of_mem_lower (b := 't') (by decide)
      (mem_of_containsSubL hc 't' (by decide))
  · exact nonws_of_mem_lower (b := 't') (by decide)
      (mem_of_containsSubL hc 't' (by decide))

/-- Trimming a string that starts with a non-whitespace character and whose
appended part has a non-whitespace character only right-trims the appended
part. -/
lemma trimL_cons_append (p : Char) (P l : List Char) (hp : isJsWs p = false)
    (hl : ∃ c ∈ l, isJsWs c = false) :
    trimL ((p :: P) ++ l) = (p :: P) ++ rtrimL l := by
  unfold trimL rtrimL
  have h1 : List.dropWhile isJsWs ((p :: P) ++ l) = (p :: P) ++ l := by
    rw [List.cons_append, List.dropWhile_cons, hp]
    rfl
  rw [h1, List.reverse_append]
  have h2 : List.dropWhile isJsWs l.reverse ≠ [] := by
    rw [Ne, List.dropWhile_eq_nil_iff]
    intro hall
    obtain ⟨c, hc, hnws⟩ := hl
    have := hall c (List.mem_reverse.mpr hc)
    rw [hnws] at this
    exact absurd this (by decide)
  rw [dropWhile_append_left _ _ _ h2, List.reverse_append, List.reverse_reverse]

/-! ## Claim theorems -/

/-- C1: In every reachable state of the dialogue controller, the difficulty
is an integer in `[1,4]`: it is initialised to 1, reset to 1 by the new-session
reset, and only ever changed by `checkAndAdjustDifficulty` — the intro,
question and hint operations leave it unchanged, and a submit turn sets it to
exactly the policy's output — by exactly +1 or −1 per adjustment, the
increment guarded by `difficulty < 4` and the decrement guarded by
`difficulty > 1`. -/
theorem reachable_difficulty_in_range :
    (∀ (content : String) (topics : List String) (st : SessionState),
        Reachable content topics st →
        1 ≤ st.currentDifficulty ∧ st.currentDifficulty ≤ 4) ∧
    initialState.currentDifficulty = 1 ∧
    (∀ st : SessionState, (handleNewSession st).currentDifficulty = 1) ∧
    (∀ (w : List Quality) (d : Nat),
        (checkAndAdjustDifficulty w d).1 = d ∨
        ((checkAndAdjustDifficulty w d).1 = d + 1 ∧ d < 4) ∨
        ((checkAndAdjustDifficulty w d).1 = d - 1 ∧ 1 < d)) ∧
    (∀ (content : String) (topics : List String) (st : SessionState)
        (qRes : Except Unit String),
        (generateNextQuestion content topics st qRes).1.currentDifficulty
          = st.currentDifficulty) ∧
    (∀ (content : String) (st : SessionState) (answerDraft : String)
        (hintRes : Except Unit String),
        (handleGetHint content st answerDraft hintRes).1.currentDifficulty
          = st.currentDifficulty) ∧
    (∀ (content : String) (topics : List String) (st : SessionState)
        (introRes qRes : Except Unit String),
        (showIntroExplanation content topics st introRes qRes).1.currentDifficulty
          = st.currentDifficulty) ∧
    (∀ (content : String) (topics : List String) (st : SessionState)
        (answer : String) (ev : Evaluation) (explRes nextQRes : Except Unit String),
        ¬ (jsTrim answer).length < 20 → st.currentQuestionText ≠ "" →
        content ≠ "" →
        (handleSubmitAnswer content topics st answer (.ok ev) explRes nextQRes).1.currentDifficulty
          = (if (pushedWindow ev.quality st.recentQualities).length = 3 then
              (checkAndAdjustDifficulty (pushedWindow ev.quality st.recentQualities)
                st.currentDifficulty).1
            else st.currentDifficulty)) :=
  ⟨fun _ _ _ h => ⟨(reachable_inv h).1, (reachable_inv h).2.1⟩, rfl,
    fun _ => rfl, checkAndAdjust_delta,
    fun content topics st qRes =>
      (gnqf_scalars content topics st.currentQuestionNumber
        st.currentDifficulty st.conversationHistory st qRes).2.1,
    getHint_difficulty, intro_difficulty,
    fun content topics st answer ev explRes nextQRes h20 hq hc =>
      (submit_scalars content topics st answer ev explRes nextQRes
        h20 hq hc).2.1⟩

theorem reachable_difficulty_in_range_witness :
    1 ≤ initialState.currentDifficulty ∧ initialState.currentDifficulty ≤ 4 :=
  reachable_difficulty_in_range.1 "c" ["A"] initialState Reachable.init

/-- C2: For every quality window of exactly 3 labels and every difficulty `d`:
all-strong with `d < 4` raises the difficulty to `d+1` and clears the window;
all-needs_work with `d > 1` lowers it to `d-1` and clears the window; in
every other case (mixed labels, or a unanimous window at a boundary) the
difficulty is unchanged and the window is retained intact, not cleared. -/
theorem difficulty_policy_cases (w : List Quality) (d : Nat) (hw : w.length = 3) :
    ((∀ q ∈ w, q = Quality.strong) → d < 4 →
      checkAndAdjustDifficulty w d = (d + 1, true) ∧ qualityWindowAfter w d = []) ∧
    ((∀ q ∈ w, q = Quality.needs_work) → 1 < d →
      checkAndAdjustDifficulty w d = (d - 1, true) ∧ qualityWindowAfter w d = []) ∧
    (¬((∀ q ∈ w, q = Quality.strong) ∧ d < 4) →
     ¬((∀ q ∈ w, q = Quality.needs_work) ∧ 1 < d) →
      checkAndAdjustDifficulty w d = (d, false) ∧ qualityWindowAfter w d = w) := by
  have hc := checkAndAdjust_eq w d hw
  refine ⟨fun hs h4 => ?_, fun hn h1 => ?_, fun hns hnn => ?_⟩
  · rw [if_pos ⟨hs, h4⟩] at hc
    refine ⟨hc, ?_⟩
    unfold qualityWindowAfter
    rw [hc]
    rfl
  · have hne : w ≠ [] := by
      intro h
      rw [h] at hw
      exact absurd hw (by decide)
    have hnots : ¬((∀ q ∈ w, q = Quality.strong) ∧ d < 4) := by
      rintro ⟨hs, -⟩
      obtain ⟨q, hq⟩ := List.exists_mem_of_ne_nil w hne
      have h₁ := hs q hq
      have h₂ := hn q hq
      rw [h₁] at h₂
      exact absurd h₂ (by decide)
    rw [if_neg hnots, if_pos ⟨hn, h1⟩] at hc
    refine ⟨hc, ?_⟩
    unfold qualityWindowAfter
    rw [hc]
    rfl
  · rw [if_neg hns, if_neg hnn] at hc
    refine ⟨hc, ?_⟩
    unfold qualityWindowAfter
    rw [hc]
    rfl

theorem difficulty_policy_cases_witness :
    (checkAndAdjustDifficulty [Quality.strong, Quality.strong, Quality.strong] 2
        = (3, true) ∧
      qualityWindowAfter [Quality.strong, Quality.strong, Quality.strong] 2 = []) ∧
    (checkAndAdjustDifficulty
        [Quality.needs_work, Quality.needs_work, Quality.needs_work] 1
        = (1, false) ∧
      qualityWindowAfter
        [Quality.needs_work, Quality.needs_work, Quality.needs_work] 1
        = [Quality.needs_work, Quality.needs_work, Quality.needs_work]) :=
  ⟨(difficulty_policy_cases [Quality.strong, Quality.strong, Quality.strong] 2
      (by decide)).1 (by decide) (by decide),
    (difficulty_policy_cases
      [Quality.needs_work, Quality.needs_work, Quality.needs_work] 1
      (by decide)).2.2 (by decide) (by decide)⟩

/-- C3 (counterexample): the claim says every answer of length ≥ 20 with a
pending question and non-empty content is evaluated; the code trims the
answer before the length check, so a 20-character answer whose trimmed length
is 19 is a no-op — state unchanged, no oracle call. -/
theorem submitAnswer_untrimmed_length20_noop :
    ("aaaaaaaaaaaaaaaaaaa " : String).length = 20 ∧
    statePending.currentQuestionText ≠ "" ∧ ("c" : String) ≠ "" ∧
    handleSubmitAnswer "c" [] statePending "aaaaaaaaaaaaaaaaaaa "
        (.ok ⟨.strong, "fb"⟩) (.ok "ex") (.ok "q2") = (statePending, []) := by
  refine ⟨by decide, by decide, by decide, ?_⟩
  decide

/-- C3 (amended): `handleSubmitAnswer` is a no-op — state unchanged, no
oracle call — whenever the trimmed answer has fewer than 20 characters, no
question is pending, or the content is empty; conversely, whenever the
trimmed answer has ≥ 20 characters, a question is pending and the content is
non-empty, it appends the answer turn to the transcript and its first oracle
call is the evaluation request. -/
theorem submitAnswer_reject_and_accept :
    (∀ (content : String) (topics : List String) (st : SessionState)
        (answer : String) (evalRes : Except Unit Evaluation)
        (explRes nextQRes : Except Unit String),
        (jsTrim answer).length < 20 ∨ st.currentQuestionText = "" ∨ content = "" →
        handleSubmitAnswer content topics st answer evalRes explRes nextQRes
          = (st, [])) ∧
    (∀ (content : String) (topics : List String) (st : SessionState)
        (answer : String) (evalRes : Except Unit Evaluation)
        (explRes nextQRes : Except Unit String),
        ¬ (jsTrim answer).length < 20 → st.currentQuestionText ≠ "" →
        content ≠ "" →
        (handleSubmitAnswer content topics st answer evalRes explRes nextQRes).2.head?
            = some (submitEvalCall content st answer) ∧
        ∃ rest,
          (handleSubmitAnswer content topics st answer evalRes explRes nextQRes).1.conversationHistory
            = st.conversationHistory ++ ⟨Role.user, answer, TurnType.answer⟩ :: rest) := by
  constructor
  · intro content topics st answer evalRes explRes nextQRes hg
    unfold handleSubmitAnswer
    rcases hg with hg | hg | hg
    · rw [if_pos hg]
    · simp only [if_pos hg, ite_self]
    · simp only [if_pos hg, ite_self]
  · intro content topics st answer evalRes explRes nextQRes h20 hq hc
    refine ⟨?_, submit_history content topics st answer evalRes explRes nextQRes h20 hq hc⟩
    unfold handleSubmitAnswer
    rw [if_neg h20, if_neg hq, if_neg hc]
    cases evalRes with
    | error u => rfl
    | ok ev =>
      dsimp only
      by_cases hstrong : ev.quality = Quality.strong
      · rw [if_pos hstrong]
        cases explRes with
        | error u => rfl
        | ok expl => rfl
      · rw [if_neg hstrong]
        by_cases hatt : 3 ≤ st.currentAttempts + 1
        · rw [if_pos hatt]
          rfl
        · rw [if_neg hatt]
          rfl

theorem submitAnswer_reject_and_accept_witness :
    ¬ ((jsTrim "aaaaaaaaaaaaaaaaaaaa").length < 20) ∧
    statePending.currentQuestionText ≠ "" ∧ ("c" : String) ≠ "" ∧
    ((handleSubmitAnswer "c" [] statePending "aaaaaaaaaaaaaaaaaaaa"
        (.ok ⟨.partial_, "fb"⟩) (.ok "ex") (.ok "q2")).2.head?
        = some (submitEvalCall "c" statePending "aaaaaaaaaaaaaaaaaaaa") ∧
      ∃ rest,
        (handleSubmitAnswer "c" [] statePending "aaaaaaaaaaaaaaaaaaaa"
          (.ok ⟨.partial_, "fb"⟩) (.ok "ex") (.ok "q2")).1.conversationHistory
          = statePending.conversationHistory ++
            ⟨Role.user, "aaaaaaaaaaaaaaaaaaaa", TurnType.answer⟩ :: rest) :=
  ⟨by decide, by decide, by decide,
    submitAnswer_reject_and_accept.2 "c" [] statePending "aaaaaaaaaaaaaaaaaaaa"
      (.ok ⟨.partial_, "fb"⟩) (.ok "ex") (.ok "q2")
      (by decide) (by decide) (by decide)⟩

/-- C4: a third consecutive non-strong evaluation (attempt count reaching 3)
forces the advance behaviour of a strong outcome — attempts and hints reset
to 0, question number incremented by 1, a chained question request issued —
with no `generateExplanation` oracle call (the issued calls are exactly the
evaluation and the chained question request). -/
theorem third_attempt_forces_advance (content : String) (topics : List String)
    (st : SessionState) (answer : String) (ev : Evaluation)
    (explRes nextQRes : Except Unit String)
    (h20 : ¬ (jsTrim answer).length < 20) (hq : st.currentQuestionText ≠ "")
    (hc : content ≠ "") (hatt : st.currentAttempts = 2)
    (hnot : ev.quality ≠ Quality.strong) :
    (handleSubmitAnswer content topics st answer (.ok ev) explRes nextQRes).1.currentAttempts
        = 0 ∧
    (handleSubmitAnswer content topics st answer (.ok ev) explRes nextQRes).1.hintsUsed
        = 0 ∧
    (handleSubmitAnswer content topics st answer (.ok ev) explRes nextQRes).1.currentQuestionNumber
        = st.currentQuestionNumber + 1 ∧
    (handleSubmitAnswer content topics st answer (.ok ev) explRes nextQRes).2
        = [submitEvalCall content st answer,
          .generateSocraticQuestion content st.currentDifficulty
            st.conversationHistory
            (focusTopicArg topics st.currentQuestionNumber)] := by
  have h3 : 3 ≤ st.currentAttempts + 1 := by omega
  have hs := submit_scalars content topics st answer ev explRes nextQRes h20 hq hc
  refine ⟨?_, ?_, ?_, ?_⟩
  · rw [hs.2.2.1, if_neg hnot, if_pos h3]
  · rw [hs.2.2.2.1, if_neg hnot, if_pos h3]
  · rw [hs.2.2.2.2, if_neg hnot, if_pos h3]
  · unfold handleSubmitAnswer
    rw [if_neg h20, if_neg hq, if_neg hc]
    dsimp only
    rw [if_neg hnot, if_pos h3]
    simp only [prependCalls]
    rw [advanceToNext_calls content topics st.currentQuestionNumber
      st.currentDifficulty st.conversationHistory (afterFeedback answer ev st)
      nextQRes hc]
    rfl

theorem third_attempt_forces_advance_witness :
    (handleSubmitAnswer "c" [] { statePending with currentAttempts := 2 }
        "aaaaaaaaaaaaaaaaaaaa" (.ok ⟨.needs_work, "fb"⟩) (.ok "ex")
        (.ok "q2")).1.currentAttempts = 0 ∧
    (handleSubmitAnswer "c" [] { statePending with currentAttempts := 2 }
        "aaaaaaaaaaaaaaaaaaaa" (.ok ⟨.needs_work, "fb"⟩) (.ok "ex")
        (.ok "q2")).1.hintsUsed = 0 ∧
    (handleSubmitAnswer "c" [] { statePending with currentAttempts := 2 }
        "aaaaaaaaaaaaaaaaaaaa" (.ok ⟨.needs_work, "fb"⟩) (.ok "ex")
        (.ok "q2")).1.currentQuestionNumber
      = { statePending with currentAttempts := 2 }.currentQuestionNumber + 1 ∧
    (handleSubmitAnswer "c" [] { statePending with currentAttempts := 2 }
        "aaaaaaaaaaaaaaaaaaaa" (.ok ⟨.needs_work, "fb"⟩) (.ok "ex")
        (.ok "q2")).2
      = [submitEvalCall "c" { statePending with currentAttempts := 2 }
          "aaaaaaaaaaaaaaaaaaaa",
        .generateSocraticQuestion "c"
          { statePending with currentAttempts := 2 }.currentDifficulty
          { statePending with currentAttempts := 2 }.conversationHistory
          (focusTopicArg []
            { statePending with currentAttempts := 2 }.currentQuestionNumber)] :=
  third_attempt_forces_advance "c" [] { statePending with currentAttempts := 2 }
    "aaaaaaaaaaaaaaaaaaaa" ⟨.needs_work, "fb"⟩ (.ok "ex") (.ok "q2")
    (by decide) (by decide) (by decide) (by decide) (by decide)

/-- C5: when the evaluation oracle call fails, the transcript retains the
just-submitted answer turn while the quality window, attempt count, hint
count, difficulty and question number keep their pre-call values, and only
the evaluation call was issued; a subsequent successful retry with the same
answer agrees on all those scalars with a direct success from the pre-failure
state, and its quality window holds exactly one new entry (the window is the
bounded push of the original window — or empty when the policy fired). -/
theorem submit_eval_failure_and_retry (content : String) (topics : List String)
    (st : SessionState) (answer : String) (u : Unit)
    (explRes nextQRes : Except Unit String)
    (h20 : ¬ (jsTrim answer).length < 20) (hq : st.currentQuestionText ≠ "")
    (hc : content ≠ "") :
    (handleSubmitAnswer content topics st answer (.error u) explRes nextQRes).1.conversationHistory
        = st.conversationHistory ++ [⟨Role.user, answer, TurnType.answer⟩] ∧
    ScalarsEq
      (handleSubmitAnswer content topics st answer (.error u) explRes nextQRes).1
      st ∧
    (handleSubmitAnswer content topics st answer (.error u) explRes nextQRes).2
        = [submitEvalCall content st answer] ∧
    (∀ (ev : Evaluation) (explRes' nextQRes' : Except Unit String),
      ScalarsEq
        (handleSubmitAnswer content topics
          (handleSubmitAnswer content topics st answer (.error u) explRes nextQRes).1
          answer (.ok ev) explRes' nextQRes').1
        (handleSubmitAnswer content topics st answer (.ok ev) explRes' nextQRes').1 ∧
      ((handleSubmitAnswer content topics
          (handleSubmitAnswer content topics st answer (.error u) explRes nextQRes).1
          answer (.ok ev) explRes' nextQRes').1.recentQualities = [] ∨
        (handleSubmitAnswer content topics
          (handleSubmitAnswer content topics st answer (.error u) explRes nextQRes).1
          answer (.ok ev) explRes' nextQRes').1.recentQualities
          = lastN 3 (st.recentQualities ++ [ev.quality]))) := by
  have he := submit_error_effects content topics st answer u explRes nextQRes h20 hq hc
  rw [he]
  dsimp only
  refine ⟨rfl, ⟨rfl, rfl, rfl, rfl, rfl⟩, rfl, ?_⟩
  intro ev explRes' nextQRes'
  have hA := submit_scalars content topics (answerAppended answer st) answer ev
    explRes' nextQRes' h20 hq hc
  have hB := submit_scalars content topics st answer ev explRes' nextQRes' h20 hq hc
  constructor
  · exact ⟨hA.1.trans hB.1.symm, hA.2.1.trans hB.2.1.symm,
      hA.2.2.1.trans hB.2.2.1.symm, hA.2.2.2.1.trans hB.2.2.2.1.symm,
      hA.2.2.2.2.trans hB.2.2.2.2.symm⟩
  · rw [hA.1]
    by_cases h3 : (pushedWindow ev.quality (answerAppended answer st).recentQualities).length = 3
    · rw [if_pos h3]
      unfold qualityWindowAfter
      split
      · exact Or.inl rfl
      · exact Or.inr rfl
    · rw [if_neg h3]
      exact Or.inr rfl

theorem submit_eval_failure_and_retry_witness :
    (handleSubmitAnswer "c" [] statePending "aaaaaaaaaaaaaaaaaaaa"
        (.error ()) (.ok "ex") (.ok "q2")).1.conversationHistory
      = statePending.conversationHistory ++
        [⟨Role.user, "aaaaaaaaaaaaaaaaaaaa", TurnType.answer⟩] ∧
    ScalarsEq
      (handleSubmitAnswer "c" [] statePending "aaaaaaaaaaaaaaaaaaaa"
        (.error ()) (.ok "ex") (.ok "q2")).1
      statePending :=
  ⟨(submit_eval_failure_and_retry "c" [] statePending "aaaaaaaaaaaaaaaaaaaa"
      () (.ok "ex") (.ok "q2") (by decide) (by decide) (by decide)).1,
    (submit_eval_failure_and_retry "c" [] statePending "aaaaaaaaaaaaaaaaaaaa"
      () (.ok "ex") (.ok "q2") (by decide) (by decide) (by decide)).2.1⟩

/-- C6: `handleGetHint` is a no-op (no oracle call, state unchanged) whenever
3 hints were already used or no question is pending; otherwise — in any
reachable state — it requests hint number `hintsUsed + 1` and, on success,
increments `hintsUsed` by exactly 1 and appends the hint only as a UI
message: the conversation history, attempt count, question number,
difficulty and quality window are unchanged; on oracle failure the state is
unchanged. -/
theorem requestHint_guard_and_frame :
    (∀ (content : String) (st : SessionState) (answerDraft : String)
        (hintRes : Except Unit String),
        3 ≤ st.hintsUsed ∨ st.currentQuestionText = "" →
        handleGetHint content st answerDraft hintRes = (st, [])) ∧
    (∀ (content : String) (topics : List String) (st : SessionState)
        (answerDraft : String) (hintRes : Except Unit String),
        Reachable content topics st →
        st.hintsUsed < 3 → st.currentQuestionText ≠ "" →
        (handleGetHint content st answerDraft hintRes).2 =
          [.generateHint st.currentQuestionText answerDraft (st.hintsUsed + 1)
            content st.currentDifficulty] ∧
        (∀ h, hintRes = .ok h →
          (handleGetHint content st answerDraft hintRes).1.hintsUsed
              = st.hintsUsed + 1 ∧
          (handleGetHint content st answerDraft hintRes).1.conversationHistory
              = st.conversationHistory ∧
          (handleGetHint content st answerDraft hintRes).1.currentAttempts
              = st.currentAttempts ∧
          (handleGetHint content st answerDraft hintRes).1.currentQuestionNumber
              = st.currentQuestionNumber ∧
          (handleGetHint content st answerDraft hintRes).1.currentDifficulty
              = st.currentDifficulty ∧
          (handleGetHint content st answerDraft hintRes).1.recentQualities
              = st.recentQualities ∧
          (handleGetHint content st answerDraft hintRes).1.messages
              = st.messages ++
                [⟨.aiExplanation, hintMessageContent (st.hintsUsed + 1) h⟩]) ∧
        (∀ u, hintRes = .error u →
          (handleGetHint content st answerDraft hintRes).1 = st)) := by
  constructor
  · intro content st answerDraft hintRes hg
    unfold handleGetHint
    rcases hg with hg | hg
    · rw [if_pos hg]
    · simp only [if_pos hg, ite_self]
  · intro content topics st answerDraft hintRes hreach hlt hqt
    have hc : content ≠ "" := (reachable_inv hreach).2.2 hqt
    unfold handleGetHint
    rw [if_neg (by omega : ¬ 3 ≤ st.hintsUsed), if_neg hqt, if_neg hc]
    refine ⟨?_, ?_, ?_⟩
    · cases hintRes with
      | error e => rfl
      | ok h => rfl
    · intro h hh
      subst hh
      exact ⟨rfl, rfl, rfl, rfl, rfl, rfl, rfl⟩
    · intro u hu
      subst hu
      rfl

theorem requestHint_guard_and_frame_witness :
    statePending.hintsUsed < 3 ∧ statePending.currentQuestionText ≠ "" ∧
    (handleGetHint "c" statePending "draft" (.ok "h")).2 =
      [.generateHint statePending.currentQuestionText "draft"
        (statePending.hintsUsed + 1) "c" statePending.currentDifficulty] ∧
    (handleGetHint "c" statePending "draft" (.ok "h")).1.hintsUsed
      = statePending.hintsUsed + 1 :=
  ⟨by decide, by decide,
    (requestHint_guard_and_frame.2 "c" [] statePending "draft" (.ok "h")
      statePending_reachable (by decide) (by decide)).1,
    ((requestHint_guard_and_frame.2 "c" [] statePending "draft" (.ok "h")
      statePending_reachable (by decide) (by decide)).2.1 "h" rfl).1⟩

/-- C8 (counterexample): the claim says the focus topic passed to the oracle
is the entry at index `min(floor((questionNumber-1)/3), topics.length-1)`;
for `topics = ["A", ""]` and question number 4 that index is 1 and the entry
is `""`, but the JavaScript `|| topics[0]` fallback makes the code pass
`"A"` instead. -/
theorem focusTopic_empty_entry_fallback :
    focusTopicIndex ["A", ""] 4 = 1 ∧
    (["A", ""] : List String).get? 1 = some "" ∧
    focusTopicArg ["A", ""] 4 = some "A" ∧
    (generateNextQuestionFrom "c" ["A", ""] 4 1 [] initialState (.ok "q")).2 =
      [.generateSocraticQuestion "c" 1 [] (some "A")] := by
  refine ⟨by decide, by decide, by decide, ?_⟩
  decide

/-- C8 (amended): whenever the topic list is non-empty and all its entries
are non-empty strings, the focus-topic argument is the entry at index
`min(floor((questionNumber-1)/3), topics.length-1)`; with non-empty content
the question request carries exactly that argument; for `[A,B,C]` the focus
topics for question numbers 1..9 are A,A,A,B,B,B,C,C,C, and from question
number 10 on the last topic C is selected. -/
theorem focusTopic_selection :
    (∀ (topics : List String) (qn : Nat), topics ≠ [] →
        (∀ x ∈ topics, x ≠ "") → 1 ≤ qn →
        focusTopicArg topics qn = topics.get? (focusTopicIndex topics qn)) ∧
    (∀ (content : String) (topics : List String) (qn d : Nat)
        (hist : List ConversationMessage) (st : SessionState)
        (r : Except Unit String), content ≠ "" →
        (generateNextQuestionFrom content topics qn d hist st r).2 =
          [.generateSocraticQuestion content d hist (focusTopicArg topics qn)]) ∧
    ((List.range 9).map (fun i => focusTopicArg ["A", "B", "C"] (i + 1)) =
      [some "A", some "A", some "A", some "B", some "B", some "B",
        some "C", some "C", some "C"]) ∧
    (∀ qn : Nat, 10 ≤ qn → focusTopicArg ["A", "B", "C"] qn = some "C") := by
  refine ⟨?_, ?_, by decide, ?_⟩
  · intro topics qn hne hnonempty h1
    cases topics with
    | nil => exact absurd rfl hne
    | cons t ts =>
      have hidx : focusTopicIndex (t :: ts) qn < (t :: ts).length := by
        have hlen : (t :: ts).length - 1 < (t :: ts).length := by
          simp [List.length_cons]
        exact lt_of_le_of_lt (min_le_right _ _) hlen
      unfold focusTopicArg
      rw [List.get?_eq_get hidx]
      dsimp only
      rw [if_neg (hnonempty _ (List.get_mem _ _ _))]
  · intro content topics qn d hist st r hc
    exact gnqf_calls content topics qn d hist st r hc
  · intro qn h10
    have hidx : focusTopicIndex ["A", "B", "C"] qn = 2 := by
      show min ((qn - 1) / 3) 2 = 2
      omega
    unfold focusTopicArg
    rw [hidx]
    decide

theorem focusTopic_selection_witness :
    (["A", "B", "C"] : List String) ≠ [] ∧
    focusTopicArg ["A", "B", "C"] 5 =
      (["A", "B", "C"] : List String).get? (focusTopicIndex ["A", "B", "C"] 5) :=
  ⟨by decide,
    focusTopic_selection.1 ["A", "B", "C"] 5 (by decide) (by decide) (by decide)⟩

/-- C7 (counterexample): the claim quantifies over all inputs, but its
correctness component `(c/tq)*60`, zeroed only at `tq = 0`, disagrees with
the code's `totalQuestions > 0` guard for negative `totalQuestions`: at
`(-1, 0, no time, -1)` the code scores 10.0 while the claim's formula gives
70.0. -/
theorem thinkingScore_negative_totals_mismatch :
    calculateThinkingScore (-1) 0 none (-1) = 10 ∧
    thinkingScoreClaim (-1) 0 none (-1) = 70 ∧
    calculateThinkingScore (-1) 0 none (-1) ≠ thinkingScoreClaim (-1) 0 none (-1) := by
  refine ⟨?_, ?_, ?_⟩ <;>
    norm_num [calculateThinkingScore, thinkingScoreClaim, jsRound]

/-- C7 (amended): for all inputs with `totalQuestions ≥ 0`,
`calculateThinkingScore` equals the spec's formula (correctness
`(c/tq)*60` — 0 if `tq = 0` — minus `min(h*2, 20)` plus the time bonus,
clamped to `[0,100]`, rounded to one decimal); in particular
`calculateThinkingScore 8 2 25 10 = 64.0` and
`calculateThinkingScore 0 0 (absent) 0 = 10.0`. -/
theorem thinkingScore_matches_spec :
    (∀ (c h : ℚ) (t : Option ℚ) (tq : ℚ), 0 ≤ tq →
        calculateThinkingScore c h t tq = thinkingScoreClaim c h t tq) ∧
    calculateThinkingScore 8 2 (some 25) 10 = 64 ∧
    calculateThinkingScore 0 0 none 0 = 10 := by
  refine ⟨fun c h t tq htq => ?_, ?_, ?_⟩
  · rcases eq_or_lt_of_le htq with rfl | h0
    · cases t with
      | none => simp [calculateThinkingScore, thinkingScoreClaim]
      | some tv =>
        simp only [calculateThinkingScore, thinkingScoreClaim]
        rw [div_zero]
        norm_num
    · have htq' : tq ≠ 0 := ne_of_gt h0
      cases t with
      | none =>
        simp only [calculateThinkingScore, thinkingScoreClaim]
        rw [if_pos h0, if_neg htq']
      | some tv =>
        simp only [calculateThinkingScore, thinkingScoreClaim]
        rw [if_pos h0, if_neg htq']
        by_cases ht : 0 < tv
        · have hcond : tv ≠ 0 ∧ 0 < tv ∧ 0 < tq := ⟨ne_of_gt ht, ht, h0⟩
          rw [if_pos hcond]
          have hB : (if 2 ≤ tv / tq ∧ tv / tq ≤ 5 then (20 : ℚ)
                else if tv / tq < 2 then 10 else if tv / tq ≤ 10 then 15 else 5)
              = (if tv / tq < 2 then (10 : ℚ) else if tv / tq ≤ 5 then 20
                else if tv / tq ≤ 10 then 15 else 5) := by
            by_cases hlt : tv / tq < 2
            · have hn1 : ¬(2 ≤ tv / tq ∧ tv / tq ≤ 5) := by
                rintro ⟨h2, -⟩
                linarith
              rw [if_neg hn1, if_pos hlt, if_pos hlt]
            · by_cases h5 : tv / tq ≤ 5
              · rw [if_pos ⟨le_of_not_lt hlt, h5⟩, if_neg hlt, if_pos h5]
              · have hn1 : ¬(2 ≤ tv / tq ∧ tv / tq ≤ 5) := fun hh => h5 hh.2
                rw [if_neg hn1, if_neg hlt, if_neg hlt, if_neg h5]
          rw [hB]
        · have hcond : ¬(tv ≠ 0 ∧ 0 < tv ∧ 0 < tq) := fun hh => ht hh.2.1
          rw [if_neg hcond]
          have hlt : tv / tq < 2 := by
            have hle : tv / tq ≤ 0 :=
              div_nonpos_of_nonpos_of_nonneg (le_of_not_lt ht) (le_of_lt h0)
            linarith
          rw [if_pos hlt]
  · norm_num [calculateThinkingScore, jsRound]
  · norm_num [calculateThinkingScore, jsRound]

theorem thinkingScore_matches_spec_witness :
    (0 : ℚ) ≤ 10 ∧
    calculateThinkingScore 8 2 (some 25) 10 = thinkingScoreClaim 8 2 (some 25) 10 :=
  ⟨by norm_num, thinkingScore_matches_spec.1 8 2 (some 25) 10 (by norm_num)⟩

/-- C9 (counterexample): the claim says that feedback containing an
explanation phrase is returned as the verbatim prefixed feedback; the code
applies `trim()` to the prefixed feedback, so trailing whitespace of the
parsed feedback is removed. -/
theorem evaluateResponse_prefix_not_verbatim :
    evaluateResponsePost "partial" "it is raining " =
      Except.ok ("partial", "Let's explore this further. it is raining") ∧
    ("Let's explore this further. it is raining" : String) ≠
      evalFeedbackPrefix ++ "it is raining " :=
  ⟨rfl, by decide⟩

/-- C9 (amended): for a valid quality and non-empty feedback, the adapter
returns the quality unchanged and: when the feedback contains one of the
explanation phrases case-insensitively, the feedback prefixed with
`"Let's explore this further. "` and then trimmed — equivalently the prefix
followed by the feedback with its trailing whitespace removed; otherwise the
feedback trimmed and otherwise unmodified. -/
theorem evaluateResponse_feedback_postprocess (quality feedback : String)
    (hq : quality ∈ validQualities) (hf : feedback ≠ "") :
    evaluateResponsePost quality feedback =
      .ok (quality,
        if hasExplanationPhrases feedback then
          evalFeedbackPrefix ++ rtrimS feedback
        else jsTrim feedback) := by
  unfold evaluateResponsePost
  rw [if_pos hq, if_neg hf]
  by_cases hx : hasExplanationPhrases feedback = true
  · rw [if_pos hx, if_pos hx]
    have key : jsTrim (evalFeedbackPrefix ++ feedback)
        = evalFeedbackPrefix ++ rtrimS feedback := by
      unfold jsTrim
      rw [String.data_append]
      have hpre : evalFeedbackPrefix.data
          = 'L' :: "et's explore this further. ".data := rfl
      rw [hpre, trimL_cons_append 'L' _ _ (by decide)
        (exists_nonws_of_hasExpl hx)]
      rfl
    rw [key]
  · rw [if_neg hx, if_neg hx]

theorem evaluateResponse_feedback_postprocess_witness :
    ("partial" ∈ validQualities) ∧ ("it is clear " : String) ≠ "" ∧
    evaluateResponsePost "partial" "it is clear " =
      .ok ("partial",
        if hasExplanationPhrases "it is clear " then
          evalFeedbackPrefix ++ rtrimS "it is clear "
        else jsTrim "it is clear ") :=
  ⟨by decide, by decide,
    evaluateResponse_feedback_postprocess "partial" "it is clear "
      (by decide) (by decide)⟩

/-- C10 (counterexample): the claim asserts every successful result contains
the exact phrase `"Ready for the next question?"`; when the generated text
contains only a case-variant, the case-insensitive check suppresses the
append and the exact phrase is absent from the result. -/
theorem generateExplanation_exact_phrase_missing :
    generateExplanationPost "ready for the next question?" =
      Except.ok "ready for the next question?" ∧
    containsSub "ready for the next question?" encouragementPhrase = false :=
  ⟨rfl, by decide⟩

/-- C10 (amended): every string returned successfully by the explanation
adapter contains `"Ready for the next question?"` case-insensitively — and
when the cleaned generated text does not already contain it (case-insensitive
check), the adapter appends a space and exactly that phrase. -/
theorem generateExplanation_contains_phrase_ci (raw r : String)
    (h : generateExplanationPost raw = .ok r) :
    containsSub (jsToLower r) (jsToLower encouragementPhrase) = true ∧
    (containsSub (jsToLower (cleanedExplanation raw))
        (jsToLower encouragementPhrase) = false →
      r = cleanedExplanation raw ++ " " ++ encouragementPhrase) := by
  unfold generateExplanationPost at h
  by_cases h0 : jsTrim raw = ""
  · rw [if_pos h0] at h
    exact absurd h (by simp)
  · rw [if_neg h0] at h
    by_cases hc : containsSub (jsToLower (cleanedExplanation raw))
        (jsToLower encouragementPhrase) = true
    · rw [if_pos hc] at h
      injection h with h'
      subst h'
      exact ⟨hc, fun hf => absurd hc (by rw [hf]; decide)⟩
    · rw [if_neg hc] at h
      injection h with h'
      subst h'
      refine ⟨?_, fun _ => rfl⟩
      rw [jsToLower_append]
      apply containsSub_append_right
      decide

theorem generateExplanation_contains_phrase_ci_witness :
    generateExplanationPost "Good." = .ok "Good. Ready for the next question?" ∧
    containsSub (jsToLower "Good. Ready for the next question?")
      (jsToLower encouragementPhrase) = true :=
  ⟨rfl, (generateExplanation_contains_phrase_ci "Good."
    "Good. Ready for the next question?" rfl).1⟩

end Tutor

namespace Tutor

example : jsTrim "  ab c  " = "ab c" := by decide

example : containsSub "visit istanbul" "it is" = true := by decide

example : calculateThinkingScore 8 2 (some 25) 10 = 64 := by
  norm_num [calculateThinkingScore, jsRound]

example : calculateThinkingScore 0 0 none 0 = 10 := by
  norm_num [calculateThinkingScore, jsRound]

example : checkAndAdjustDifficulty [.strong, .strong, .strong] 2 = (3, true) := by
  decide

end Tutor
